import Mathlib

/-!
Verification of the reliability-estimation engine of snapraid
(`cmdline/device.c`): calibration tables, the piecewise-linear rate
interpolator, the Poisson risk model, the MTTDL-based array loss model,
the SMART aggregate computation and the device-operation dispatcher.

Doubles are modelled as real numbers; SMART counters (uint64) as
naturals.  Division follows the source expressions, with truncated
natural subtraction standing for the unsigned subtractions that the
source performs (the two agree on every execution path reached under
the preconditions studied here).
-/

namespace Snapraid

/-- One data point of an Annual-Failure-Rate calibration table
(struct `afr_point`): a raw SMART attribute value and the AFR there. -/
structure afr_point where
  value : ℕ
  afr : ℝ

/-- The `AFR_5` table (Backblaze data points), verbatim from the source,
including the leading `(0,0)` pair and the terminal `(0,0)` sentinel. -/
noncomputable def AFR_5 : List afr_point :=
  [⟨0, 0⟩, ⟨1, 0.027432608477803388⟩, ⟨4, 0.07501976284584981⟩,
   ⟨16, 0.23589260654405794⟩, ⟨70, 0.36193219378600433⟩,
   ⟨260, 0.5676621428968173⟩, ⟨1100, 1.5028253400346423⟩,
   ⟨4500, 2.0659987547404763⟩, ⟨17000, 1.7755385684503124⟩, ⟨0, 0⟩]

/-- The `AFR_187` table, verbatim from the source. -/
noncomputable def AFR_187 : List afr_point :=
  [⟨0, 0⟩, ⟨1, 0.33877621175661743⟩, ⟨3, 0.5014425058387142⟩,
   ⟨11, 0.5346094598348444⟩, ⟨20, 0.8428063943161636⟩,
   ⟨35, 1.4429071005017484⟩, ⟨65, 1.6190935390549661⟩, ⟨0, 0⟩]

/-- The `AFR_188` table, verbatim from the source. -/
noncomputable def AFR_188 : List afr_point :=
  [⟨0, 0⟩, ⟨1, 0.10044174089362015⟩, ⟨13000000000, 0.334030592234279⟩,
   ⟨26000000000, 0.36724705400842445⟩, ⟨0, 0⟩]

/-- The `AFR_193` table, verbatim from the source. -/
noncomputable def AFR_193 : List afr_point :=
  [⟨0, 0⟩, ⟨1300, 0.024800489215129725⟩, ⟨5500, 0.05859661417772557⟩,
   ⟨21000, 0.19566577603409208⟩, ⟨90000, 0.2673688205712117⟩, ⟨0, 0⟩]

/-- The `AFR_197` table, verbatim from the source. -/
noncomputable def AFR_197 : List afr_point :=
  [⟨0, 0⟩, ⟨1, 0.34196613799103254⟩, ⟨2, 0.6823772508117681⟩,
   ⟨16, 0.9564879341127684⟩, ⟨40, 1.6519989942167461⟩,
   ⟨100, 2.5137741046831956⟩, ⟨250, 3.3203378817413904⟩, ⟨0, 0⟩]

/-- The `AFR_198` table, verbatim from the source. -/
noncomputable def AFR_198 : List afr_point :=
  [⟨0, 0⟩, ⟨1, 0.8135764944275583⟩, ⟨2, 1.1173469387755102⟩,
   ⟨4, 1.3558692421991083⟩, ⟨10, 1.7464114832535886⟩,
   ⟨12, 2.6449275362318843⟩, ⟨0, 0⟩]

/-- The scan loop of `smart_afr_value`: `prev` is the point `tab[i-1]`
and the list argument is the remaining points from `tab[i]` on.  The
loop advances while `tab[i].value != 0 && tab[i].value < value`; on
exit it returns the last rate (sentinel hit), the exact tabulated rate,
or the linear interpolation between `tab[i-1]` and `tab[i]`. -/
noncomputable def smart_afr_scan (value : ℕ) : afr_point → List afr_point → ℝ
  | prev, [] => prev.afr
  | prev, p :: rest =>
    if p.value ≠ 0 ∧ p.value < value then smart_afr_scan value p rest
    else if p.value = 0 then prev.afr
    else if p.value = value then p.afr
    else prev.afr +
      ((value - prev.value : ℕ) : ℝ) * (p.afr - prev.afr) /
        ((p.value - prev.value : ℕ) : ℝ)

/-- `smart_afr_value`: estimated AFR from a calibration table.  A zero
counter returns 0 unconditionally; otherwise the table is scanned from
index 1 with `tab[0]` as the initial previous point. -/
noncomputable def smart_afr_value (tab : List afr_point) (value : ℕ) : ℝ :=
  if value = 0 then 0
  else
    match tab with
    | [] => 0
    | p0 :: rest => smart_afr_scan value p0 rest

/-- `fact`: iterative factorial of the source
(`v = 1; while (n > 1) v *= n--;`), as a real number. -/
noncomputable def fact : ℕ → ℝ
  | 0 => 1
  | n + 1 => (n + 1) * fact n

/-- `poisson_prob_n_failures`: probability of exactly `n` events of a
Poisson process with the given rate in a time unit. -/
noncomputable def poisson_prob_n_failures (rate : ℝ) (n : ℕ) : ℝ :=
  rate ^ n * Real.exp (-rate) / fact n

/-- `poisson_prob_n_or_more_failures`: probability of `n` or more
events; the source accumulates `pmf (n - 1 - i)` for `i = 0 .. n-1`
and subtracts the sum from 1. -/
noncomputable def poisson_prob_n_or_more_failures (rate : ℝ) (n : ℕ) : ℝ :=
  1 - Finset.sum (Finset.range n) fun i => poisson_prob_n_failures rate (n - 1 - i)

/-- The divisors of the falling-product loop of
`raid_prob_of_one_or_more_failures`: `n - i` for `i = 0 .. redundancy`,
in loop order (unsigned subtraction modelled as truncated subtraction). -/
def mttdl_divisors (n redundancy : ℕ) : List ℕ :=
  (List.range (redundancy + 1)).map fun i => n - i

/-- `raid_prob_of_one_or_more_failures`: the MTTDL-based annual
data-loss probability of the array. -/
noncomputable def raid_prob_of_one_or_more_failures
    (array_failure_rate replace_rate : ℝ) (n redundancy : ℕ) : ℝ :=
  let MTBF : ℝ := n / array_failure_rate
  let MTTR : ℝ := 1 / replace_rate
  let MTTDL0 : ℝ := MTBF ^ (redundancy + 1) / MTTR ^ redundancy
  let MTTDL : ℝ :=
    (mttdl_divisors n redundancy).foldl (fun acc (d : ℕ) => acc / (d : ℝ)) MTTDL0
  let raid_failure_rate : ℝ := 1 / MTTDL
  poisson_prob_n_or_more_failures raid_failure_rate 1

/-- The falling product `n * (n-1) * ... * (n-redundancy)` dividing the
MTTDL, as a real number. -/
noncomputable def falling_product (n redundancy : ℕ) : ℝ :=
  Finset.prod (Finset.range (redundancy + 1)) fun i => ((n - i : ℕ) : ℝ)

/-- Closed form of the rate `1 / MTTDL` fed to the Poisson tail. -/
noncomputable def raid_rate (afr rr : ℝ) (n redundancy : ℕ) : ℝ :=
  afr ^ (redundancy + 1) * falling_product n redundancy /
    ((n : ℝ) ^ (redundancy + 1) * rr ^ redundancy)

section BasicLemmas

lemma fact_eq_factorial (n : ℕ) : fact n = (Nat.factorial n : ℝ) := by
  induction n with
  | zero => simp [fact, Nat.factorial]
  | succ k ih =>
      simp only [fact]
      rw [ih, Nat.factorial_succ]
      push_cast
      ring

lemma fact_zero : fact 0 = 1 := rfl

lemma poisson_tail_eq_sum (rate : ℝ) (n : ℕ) :
    poisson_prob_n_or_more_failures rate n =
      1 - Finset.sum (Finset.range n) fun k => poisson_prob_n_failures rate k := by
  unfold poisson_prob_n_or_more_failures
  rw [Finset.sum_range_reflect]

lemma poisson_tail_zero (rate : ℝ) : poisson_prob_n_or_more_failures rate 0 = 1 := by
  simp [poisson_prob_n_or_more_failures]

lemma poisson_tail_one (rate : ℝ) :
    poisson_prob_n_or_more_failures rate 1 = 1 - Real.exp (-rate) := by
  simp [poisson_prob_n_or_more_failures, poisson_prob_n_failures, fact_zero]

lemma poisson_tail_one_at_zero : poisson_prob_n_or_more_failures 0 1 = 0 := by
  rw [poisson_tail_one]; simp

lemma foldl_div_eq_div_prod (l : List ℕ) (a : ℝ) :
    l.foldl (fun acc (d : ℕ) => acc / (d : ℝ)) a = a / ((l.map (Nat.cast : ℕ → ℝ)).prod) := by
  induction l generalizing a with
  | nil => simp
  | cons x xs ih =>
      rw [List.foldl_cons, ih, List.map_cons, List.prod_cons, div_div]

lemma mttdl_divisors_prod (n r : ℕ) :
    (((mttdl_divisors n r).map (Nat.cast : ℕ → ℝ)).prod) = falling_product n r := by
  unfold mttdl_divisors falling_product
  induction r with
  | zero => simp [List.range_succ]
  | succ k ih =>
      rw [List.range_succ, Finset.prod_range_succ, ← ih]
      rw [List.map_append, List.map_append, List.prod_append,
        List.map_singleton, List.map_singleton, List.prod_singleton]

end BasicLemmas

/-- The `(0, 0)` pair: both the mandatory leading entry `tab[0]` and the
terminal sentinel of every calibration table. -/
def afr_zero : afr_point := ⟨0, 0⟩

/-- A calibration table assembled from its interior breakpoints: the
leading `(0,0)` pair, the breakpoints, the terminal `(0,0)` sentinel. -/
def smart_afr_table (mid : List afr_point) : List afr_point :=
  afr_zero :: (mid ++ [afr_zero])

section InterpolatorLemmas

lemma smart_afr_value_table_pos (mid : List afr_point) (v : ℕ) (hv : v ≠ 0) :
    smart_afr_value (smart_afr_table mid) v =
      smart_afr_scan v afr_zero (mid ++ [afr_zero]) := by
  simp [smart_afr_value, smart_afr_table, hv]

lemma interp_le_right {pv v bv : ℕ} {a b : ℝ}
    (hab : a ≤ b) (hpv : pv < v) (hvb : v ≤ bv) :
    a + ((v - pv : ℕ) : ℝ) * (b - a) / ((bv - pv : ℕ) : ℝ) ≤ b := by
  have hpb : pv < bv := lt_of_lt_of_le hpv hvb
  have hd : (0 : ℝ) < ((bv - pv : ℕ) : ℝ) := by
    exact_mod_cast Nat.sub_pos_of_lt hpb
  have hx : ((v - pv : ℕ) : ℝ) ≤ ((bv - pv : ℕ) : ℝ) := by
    exact_mod_cast Nat.sub_le_sub_right hvb pv
  have hnum : ((v - pv : ℕ) : ℝ) * (b - a) ≤ ((bv - pv : ℕ) : ℝ) * (b - a) :=
    mul_le_mul_of_nonneg_right hx (sub_nonneg.mpr hab)
  have hdiv : ((v - pv : ℕ) : ℝ) * (b - a) / ((bv - pv : ℕ) : ℝ) ≤
      ((bv - pv : ℕ) : ℝ) * (b - a) / ((bv - pv : ℕ) : ℝ) :=
    (div_le_div_right hd).mpr hnum
  have hcancel : ((bv - pv : ℕ) : ℝ) * (b - a) / ((bv - pv : ℕ) : ℝ) = b - a := by
    field_simp
  linarith

lemma interp_mono_value {pv v1 v2 bv : ℕ} {a b : ℝ}
    (hab : a ≤ b) (h12 : v1 ≤ v2) :
    a + ((v1 - pv : ℕ) : ℝ) * (b - a) / ((bv - pv : ℕ) : ℝ) ≤
      a + ((v2 - pv : ℕ) : ℝ) * (b - a) / ((bv - pv : ℕ) : ℝ) := by
  have hx : ((v1 - pv : ℕ) : ℝ) ≤ ((v2 - pv : ℕ) : ℝ) := by
    exact_mod_cast Nat.sub_le_sub_right h12 pv
  have hnum : ((v1 - pv : ℕ) : ℝ) * (b - a) ≤ ((v2 - pv : ℕ) : ℝ) * (b - a) :=
    mul_le_mul_of_nonneg_right hx (sub_nonneg.mpr hab)
  rcases eq_or_lt_of_le (Nat.cast_nonneg (bv - pv) : (0 : ℝ) ≤ ((bv - pv : ℕ) : ℝ))
    with hd | hd
  · rw [← hd, div_zero, div_zero]
  · have := (div_le_div_right hd).mpr hnum
    linarith

lemma smart_afr_scan_ge (mid : List afr_point) :
    ∀ (prev : afr_point) (v : ℕ),
      (prev :: mid).Pairwise (fun x y => x.value < y.value) →
      (prev :: mid).Pairwise (fun x y => x.afr ≤ y.afr) →
      prev.value < v →
      prev.afr ≤ smart_afr_scan v prev (mid ++ [afr_zero]) := by
  induction mid with
  | nil =>
      intro prev v _ _ _
      simp [smart_afr_scan, afr_zero]
  | cons p rest ih =>
      intro prev v hv ha hpv
      rw [List.cons_append]
      rw [List.pairwise_cons] at hv ha
      have h1 : prev.value < p.value := hv.1 p (List.mem_cons_self _ _)
      have h2 : prev.afr ≤ p.afr := ha.1 p (List.mem_cons_self _ _)
      simp only [smart_afr_scan]
      by_cases hlt : p.value < v
      · rw [if_pos (⟨by omega, hlt⟩ : p.value ≠ 0 ∧ p.value < v)]
        exact le_trans h2 (ih p v hv.2 ha.2 hlt)
      · rw [if_neg (by omega : ¬(p.value ≠ 0 ∧ p.value < v)),
          if_neg (by omega : ¬p.value = 0)]
        by_cases he : p.value = v
        · rw [if_pos he]; exact h2
        · rw [if_neg he]
          have hnn : (0 : ℝ) ≤ ((v - prev.value : ℕ) : ℝ) * (p.afr - prev.afr) /
              ((p.value - prev.value : ℕ) : ℝ) :=
            div_nonneg (mul_nonneg (Nat.cast_nonneg _) (sub_nonneg.mpr h2))
              (Nat.cast_nonneg _)
          linarith

lemma smart_afr_scan_mono (mid : List afr_point) :
    ∀ (prev : afr_point) (v1 v2 : ℕ),
      (prev :: mid).Pairwise (fun x y => x.value < y.value) →
      (prev :: mid).Pairwise (fun x y => x.afr ≤ y.afr) →
      prev.value < v1 → v1 ≤ v2 →
      smart_afr_scan v1 prev (mid ++ [afr_zero]) ≤
        smart_afr_scan v2 prev (mid ++ [afr_zero]) := by
  induction mid with
  | nil =>
      intro prev v1 v2 _ _ _ _
      simp [smart_afr_scan, afr_zero]
  | cons p rest ih =>
      intro prev v1 v2 hv ha hp1 h12
      rcases eq_or_lt_of_le h12 with rfl | hlt12
      · exact le_refl _
      rw [List.cons_append]
      rw [List.pairwise_cons] at hv ha
      have h1v : prev.value < p.value := hv.1 p (List.mem_cons_self _ _)
      have h1a : prev.afr ≤ p.afr := ha.1 p (List.mem_cons_self _ _)
      simp only [smart_afr_scan]
      by_cases h1 : p.value < v1
      · have h2 : p.value < v2 := lt_of_lt_of_le h1 h12
        rw [if_pos (⟨by omega, h1⟩ : p.value ≠ 0 ∧ p.value < v1),
          if_pos (⟨by omega, h2⟩ : p.value ≠ 0 ∧ p.value < v2)]
        exact ih p v1 v2 hv.2 ha.2 h1 h12
      · rw [if_neg (by omega : ¬(p.value ≠ 0 ∧ p.value < v1)),
          if_neg (by omega : ¬p.value = 0)]
        by_cases h2 : p.value < v2
        · rw [if_pos (⟨by omega, h2⟩ : p.value ≠ 0 ∧ p.value < v2)]
          have hub : (if p.value = v1 then p.afr
              else prev.afr + ((v1 - prev.value : ℕ) : ℝ) * (p.afr - prev.afr) /
                ((p.value - prev.value : ℕ) : ℝ)) ≤ p.afr := by
            by_cases he1 : p.value = v1
            · rw [if_pos he1]
            · rw [if_neg he1]
              exact interp_le_right h1a hp1 (by omega)
          exact le_trans hub (smart_afr_scan_ge rest p v2 hv.2 ha.2 h2)
        · rw [if_neg (by omega : ¬(p.value ≠ 0 ∧ p.value < v2)),
            if_neg (by omega : ¬p.value = 0)]
          by_cases he2 : p.value = v2
          · rw [if_pos he2]
            by_cases he1 : p.value = v1
            · rw [if_pos he1]
            · rw [if_neg he1]
              exact interp_le_right h1a hp1 (by omega)
          · rw [if_neg he2, if_neg (by omega : ¬p.value = v1)]
            exact interp_mono_value h1a h12

lemma smart_afr_scan_last (mid : List afr_point) :
    ∀ (prev : afr_point) (v : ℕ),
      (∀ p ∈ mid, p.value ≠ 0) → (∀ p ∈ mid, p.value < v) →
      smart_afr_scan v prev (mid ++ [afr_zero]) =
        ((prev :: mid).getLast (List.cons_ne_nil _ _)).afr := by
  induction mid with
  | nil =>
      intro prev v _ _
      simp [smart_afr_scan, afr_zero, List.getLast]
  | cons p rest ih =>
      intro prev v h0 hlt
      rw [List.cons_append]
      simp only [smart_afr_scan]
      rw [if_pos (⟨h0 p (List.mem_cons_self _ _), hlt p (List.mem_cons_self _ _)⟩ :
        p.value ≠ 0 ∧ p.value < v)]
      rw [ih p v (fun x hx => h0 x (List.mem_cons_of_mem _ hx))
        (fun x hx => hlt x (List.mem_cons_of_mem _ hx))]
      exact congrArg afr_point.afr (List.getLast_cons (List.cons_ne_nil _ _)).symm

lemma smart_afr_scan_exact (mid : List afr_point) :
    ∀ (prev : afr_point) (v : ℕ) (q : afr_point),
      (prev :: mid).Pairwise (fun x y => x.value < y.value) →
      q ∈ mid → q.value = v →
      smart_afr_scan v prev (mid ++ [afr_zero]) = q.afr := by
  induction mid with
  | nil =>
      intro _ _ _ _ h _
      exact absurd h (List.not_mem_nil _)
  | cons p rest ih =>
      intro prev v q hv hq hqv
      rw [List.cons_append]
      rw [List.pairwise_cons] at hv
      have hpv : prev.value < p.value := hv.1 p (List.mem_cons_self _ _)
      simp only [smart_afr_scan]
      rcases List.mem_cons.mp hq with rfl | hq2
      · rw [if_neg (by omega : ¬(q.value ≠ 0 ∧ q.value < v)),
          if_neg (by omega : ¬q.value = 0), if_pos hqv]
      · have hpq : p.value < q.value := (List.pairwise_cons.mp hv.2).1 q hq2
        rw [if_pos (⟨by omega, by omega⟩ : p.value ≠ 0 ∧ p.value < v)]
        exact ih p v q hv.2 hq2 hqv

lemma smart_afr_scan_interp (mid : List afr_point) :
    ∀ (prev : afr_point) (v : ℕ) (a b : afr_point),
      (prev :: mid).Pairwise (fun x y => x.value < y.value) →
      (a, b) ∈ (prev :: mid).zip mid →
      a.value < v → v < b.value →
      smart_afr_scan v prev (mid ++ [afr_zero]) =
        a.afr + ((v - a.value : ℕ) : ℝ) * (b.afr - a.afr) /
          ((b.value - a.value : ℕ) : ℝ) := by
  induction mid with
  | nil =>
      intro _ _ _ _ _ h _ _
      simp at h
  | cons p rest ih =>
      intro prev v a b hv hzip hav hvb
      rw [List.cons_append]
      rw [List.pairwise_cons] at hv
      have hpv : prev.value < p.value := hv.1 p (List.mem_cons_self _ _)
      rw [List.zip_cons_cons] at hzip
      simp only [smart_afr_scan]
      rcases List.mem_cons.mp hzip with heq | htail
      · have ha2 : a = prev := congrArg Prod.fst heq
        have hb2 : b = p := congrArg Prod.snd heq
        subst ha2; subst hb2
        rw [if_neg (by omega : ¬(b.value ≠ 0 ∧ b.value < v)),
          if_neg (by omega : ¬b.value = 0),
          if_neg (by omega : ¬b.value = v)]
      · have hap : a ∈ p :: rest := (List.of_mem_zip htail).1
        have hpa : p.value ≤ a.value := by
          rcases List.mem_cons.mp hap with rfl | h2
          · exact le_refl _
          · exact le_of_lt ((List.pairwise_cons.mp hv.2).1 a h2)
        rw [if_pos (⟨by omega, by omega⟩ : p.value ≠ 0 ∧ p.value < v)]
        exact ih p v a b hv.2 htail hav hvb

end InterpolatorLemmas

section RaidModel

lemma falling_product_pos {n r : ℕ} (h : r < n) : 0 < falling_product n r := by
  unfold falling_product
  apply Finset.prod_pos
  intro i hi
  have hi2 : i ≤ r := Nat.lt_succ_iff.mp (Finset.mem_range.mp hi)
  have hpos : 0 < n - i := Nat.sub_pos_of_lt (lt_of_le_of_lt hi2 h)
  exact_mod_cast hpos

lemma falling_product_succ (n r : ℕ) :
    falling_product n (r + 1) = falling_product n r * ((n - (r + 1) : ℕ) : ℝ) := by
  unfold falling_product
  exact Finset.prod_range_succ _ _

lemma raid_prob_closed_form (afr rr : ℝ) (n r : ℕ)
    (ha : 0 < afr) (hr : 0 < rr) (hn : r < n) :
    raid_prob_of_one_or_more_failures afr rr n r =
      1 - Real.exp (-(raid_rate afr rr n r)) := by
  have hP : 0 < falling_product n r := falling_product_pos hn
  have hn0 : 0 < n := lt_of_le_of_lt (Nat.zero_le r) hn
  have hnR : (0 : ℝ) < n := by exact_mod_cast hn0
  simp only [raid_prob_of_one_or_more_failures]
  rw [foldl_div_eq_div_prod, mttdl_divisors_prod, poisson_tail_one]
  have key : (1 : ℝ) /
      (((n : ℝ) / afr) ^ (r + 1) / ((1 : ℝ) / rr) ^ r / falling_product n r) =
      raid_rate afr rr n r := by
    unfold raid_rate
    rw [div_pow, div_pow, one_pow]
    field_simp
  rw [key]

lemma raid_rate_pos (afr rr : ℝ) (n r : ℕ)
    (ha : 0 < afr) (hr : 0 < rr) (hn : r < n) : 0 < raid_rate afr rr n r := by
  have hnR : (0 : ℝ) < n := by
    exact_mod_cast lt_of_le_of_lt (Nat.zero_le r) hn
  unfold raid_rate
  exact div_pos (mul_pos (pow_pos ha _) (falling_product_pos hn))
    (mul_pos (pow_pos hnR _) (pow_pos hr _))

lemma raid_rate_succ (afr rr : ℝ) (n r : ℕ)
    (hr : rr ≠ 0) (hn : (n : ℝ) ≠ 0) :
    raid_rate afr rr n (r + 1) =
      raid_rate afr rr n r * (afr * ((n - (r + 1) : ℕ) : ℝ) / ((n : ℝ) * rr)) := by
  unfold raid_rate
  rw [falling_product_succ]
  field_simp
  ring

lemma raid_prob_zero_rate (rr : ℝ) (n r : ℕ) :
    raid_prob_of_one_or_more_failures 0 rr n r = 0 := by
  simp only [raid_prob_of_one_or_more_failures]
  rw [foldl_div_eq_div_prod, mttdl_divisors_prod, div_zero,
    zero_pow (Nat.succ_ne_zero r), zero_div, zero_div, div_zero,
    poisson_tail_one_at_zero]

lemma raid_prob_redundancy_step (afr rr : ℝ) (n r : ℕ)
    (ha : 0 < afr) (hr : 0 < rr) (hn : r + 1 < n)
    (hc : ((n - (r + 1) : ℕ) : ℝ) * afr < (n : ℝ) * rr) :
    raid_prob_of_one_or_more_failures afr rr n (r + 1) <
      raid_prob_of_one_or_more_failures afr rr n r := by
  have h1 : r < n := lt_trans (Nat.lt_succ_self r) hn
  have hnR : (0 : ℝ) < n := by
    exact_mod_cast lt_of_le_of_lt (Nat.zero_le r) h1
  rw [raid_prob_closed_form afr rr n (r + 1) ha hr hn,
    raid_prob_closed_form afr rr n r ha hr h1]
  have hR : raid_rate afr rr n (r + 1) < raid_rate afr rr n r := by
    rw [raid_rate_succ afr rr n r (ne_of_gt hr) (ne_of_gt hnR)]
    have hq : afr * ((n - (r + 1) : ℕ) : ℝ) / ((n : ℝ) * rr) < 1 := by
      rw [div_lt_one (mul_pos hnR hr)]
      calc afr * ((n - (r + 1) : ℕ) : ℝ)
          = ((n - (r + 1) : ℕ) : ℝ) * afr := mul_comm _ _
        _ < (n : ℝ) * rr := hc
    exact mul_lt_of_lt_one_right (raid_rate_pos afr rr n r ha hr h1) hq
  have hexp := Real.exp_lt_exp.mpr (neg_lt_neg hR)
  linarith

lemma raid_prob_repair_step (afr rr1 rr2 : ℝ) (n r : ℕ)
    (ha : 0 < afr) (h2 : 0 < rr2) (h12 : rr2 < rr1) (hr1 : 1 ≤ r) (hn : r < n) :
    raid_prob_of_one_or_more_failures afr rr1 n r <
      raid_prob_of_one_or_more_failures afr rr2 n r := by
  have h1 : 0 < rr1 := lt_trans h2 h12
  have hnR : (0 : ℝ) < n := by
    exact_mod_cast lt_of_le_of_lt (Nat.zero_le r) hn
  rw [raid_prob_closed_form afr rr1 n r ha h1 hn,
    raid_prob_closed_form afr rr2 n r ha h2 hn]
  have hR : raid_rate afr rr1 n r < raid_rate afr rr2 n r := by
    unfold raid_rate
    apply div_lt_div_of_pos_left
    · exact mul_pos (pow_pos ha _) (falling_product_pos hn)
    · exact mul_pos (pow_pos hnR _) (pow_pos h2 _)
    · exact mul_lt_mul_of_pos_left
        (pow_lt_pow_left₀ h12 (le_of_lt h2) (Nat.one_le_iff_ne_zero.mp hr1))
        (pow_pos hnR _)
  have hexp := Real.exp_lt_exp.mpr (neg_lt_neg hR)
  linarith

lemma raid_prob_100_1_4_1 :
    raid_prob_of_one_or_more_failures 100 1 4 1 = 1 - Real.exp (-7500) := by
  rw [raid_prob_closed_form 100 1 4 1 (by norm_num) (by norm_num) (by norm_num)]
  norm_num [raid_rate, falling_product, Finset.prod_range_succ, Finset.prod_range_zero]

lemma raid_prob_100_1_4_2 :
    raid_prob_of_one_or_more_failures 100 1 4 2 = 1 - Real.exp (-375000) := by
  rw [raid_prob_closed_form 100 1 4 2 (by norm_num) (by norm_num) (by norm_num)]
  norm_num [raid_rate, falling_product, Finset.prod_range_succ, Finset.prod_range_zero]

end RaidModel

/-- C1: for positive array failure rate and repair rate and
`0 ≤ redundancy < memberCount`, the array loss model returns exactly
the Poisson tail `P(≥ 1 failure)` at rate `1 / MTTDL`, where
`MTBF = n / arrayFailureRate`, `MTTR = 1 / repairRatePerYear` and
`MTTDL = MTBF^(r+1) / MTTR^r` divided by the falling product
`n * (n-1) * ... * (n-r)`. -/
theorem C1_raid_prob_is_poisson_tail_of_mttdl (afr rr : ℝ) (n r : ℕ)
    (ha : 0 < afr) (hr : 0 < rr) (hn : r < n) :
    raid_prob_of_one_or_more_failures afr rr n r =
      poisson_prob_n_or_more_failures
        (1 / (((n : ℝ) / afr) ^ (r + 1) / ((1 : ℝ) / rr) ^ r / falling_product n r)) 1 := by
  simp only [raid_prob_of_one_or_more_failures]
  rw [foldl_div_eq_div_prod, mttdl_divisors_prod]

theorem C1_witness :
    raid_prob_of_one_or_more_failures 1 2 4 1 =
      poisson_prob_n_or_more_failures
        (1 / ((((4 : ℕ) : ℝ) / 1) ^ 2 / ((1 : ℝ) / 2) ^ 1 / falling_product 4 1)) 1 :=
  C1_raid_prob_is_poisson_tail_of_mttdl 1 2 4 1 (by norm_num) (by norm_num) (by norm_num)

/-- C2 counterexample: with `arrayFailureRate = 100`, `repairRatePerYear = 1`,
`memberCount = 4` and `redundancy = 1 < memberCount - 1`, increasing the
redundancy to 2 strictly increases the computed loss probability, so the
claimed unconditional strict decrease in redundancy is false. -/
theorem C2_counterexample :
    (1 : ℕ) < 4 - 1 ∧ (0 : ℝ) < 100 ∧ (0 : ℝ) < 1 ∧
    raid_prob_of_one_or_more_failures 100 1 4 1 <
      raid_prob_of_one_or_more_failures 100 1 4 2 ∧
    ¬ raid_prob_of_one_or_more_failures 100 1 4 2 <
        raid_prob_of_one_or_more_failures 100 1 4 1 := by
  have h1 := raid_prob_100_1_4_1
  have h2 := raid_prob_100_1_4_2
  have hexp := Real.exp_lt_exp.mpr (show (-375000 : ℝ) < -7500 by norm_num)
  refine ⟨by norm_num, by norm_num, by norm_num, ?_, ?_⟩
  · rw [h1, h2]; linarith
  · rw [h1, h2]; intro hcon; linarith

/-- C2 amended: with positive failure and repair rates, increasing the
redundancy `r → r+1` (for `r+1 < memberCount`) strictly decreases the
result provided `(n-(r+1)) * arrayFailureRate < n * repairRatePerYear`;
for `1 ≤ redundancy < memberCount`, decreasing the repair rate strictly
increases the result; and a zero array failure rate yields 0 for every
redundancy. -/
theorem C2_amended_monotonicity :
    (∀ (afr rr : ℝ) (n r : ℕ), 0 < afr → 0 < rr → r + 1 < n →
      ((n - (r + 1) : ℕ) : ℝ) * afr < (n : ℝ) * rr →
      raid_prob_of_one_or_more_failures afr rr n (r + 1) <
        raid_prob_of_one_or_more_failures afr rr n r) ∧
    (∀ (afr rr1 rr2 : ℝ) (n r : ℕ), 0 < afr → 0 < rr2 → rr2 < rr1 →
      1 ≤ r → r < n →
      raid_prob_of_one_or_more_failures afr rr1 n r <
        raid_prob_of_one_or_more_failures afr rr2 n r) ∧
    (∀ (rr : ℝ) (n r : ℕ), raid_prob_of_one_or_more_failures 0 rr n r = 0) :=
  ⟨raid_prob_redundancy_step, raid_prob_repair_step, raid_prob_zero_rate⟩

theorem C2_amended_witness :
    raid_prob_of_one_or_more_failures 1 1 4 2 <
      raid_prob_of_one_or_more_failures 1 1 4 1 ∧
    raid_prob_of_one_or_more_failures 1 2 4 1 <
      raid_prob_of_one_or_more_failures 1 1 4 1 ∧
    raid_prob_of_one_or_more_failures 0 1 4 1 = 0 :=
  ⟨C2_amended_monotonicity.1 1 1 4 1 (by norm_num) (by norm_num) (by norm_num)
      (by norm_num),
   C2_amended_monotonicity.2.1 1 2 1 4 1 (by norm_num) (by norm_num) (by norm_num)
      (by norm_num) (by norm_num),
   C2_amended_monotonicity.2.2 1 4 1⟩

/-- C10: under the precondition `redundancy < memberCount`, every divisor
`n - i` of the falling-product loop is at least 1 (no division by zero)
and every loop index `i` is below `n` (the unsigned subtraction cannot
wrap). -/
theorem C10_mttdl_divisors_safe (n r : ℕ) (h : r < n) :
    (∀ d ∈ mttdl_divisors n r, 1 ≤ d) ∧ ∀ i ∈ List.range (r + 1), i < n := by
  constructor
  · intro d hd
    unfold mttdl_divisors at hd
    rcases List.mem_map.mp hd with ⟨i, hi, rfl⟩
    have hi2 : i ≤ r := Nat.lt_succ_iff.mp (List.mem_range.mp hi)
    exact Nat.sub_pos_of_lt (lt_of_le_of_lt hi2 h)
  · intro i hi
    exact lt_of_le_of_lt (Nat.lt_succ_iff.mp (List.mem_range.mp hi)) h

theorem C10_witness :
    (∀ d ∈ mttdl_divisors 4 2, 1 ≤ d) ∧ ∀ i ∈ List.range 3, i < 4 :=
  C10_mttdl_divisors_safe 4 2 (by norm_num)

/-- C4: for a table satisfying the monotone counterValue invariant
(strictly increasing breakpoints after the leading `(0,0)` pair):
value 0 maps to 0 unconditionally; a value above every breakpoint maps
to the last tabulated rate (flat extrapolation); a value equal to a
breakpoint maps to that breakpoint's rate; and a value strictly between
two adjacent table points maps to their linear interpolation
`rateBelow + (value - valueBelow) * (rateAbove - rateBelow) / (valueAbove - valueBelow)`. -/
theorem C4_interpolator_piecewise (mid : List afr_point)
    (hv : (afr_zero :: mid).Pairwise (fun x y => x.value < y.value)) :
    smart_afr_value (smart_afr_table mid) 0 = 0 ∧
    (∀ v : ℕ, (∀ p ∈ mid, p.value < v) →
      smart_afr_value (smart_afr_table mid) v =
        ((afr_zero :: mid).getLast (List.cons_ne_nil _ _)).afr) ∧
    (∀ q ∈ mid, smart_afr_value (smart_afr_table mid) q.value = q.afr) ∧
    (∀ (a b : afr_point) (v : ℕ), (a, b) ∈ (afr_zero :: mid).zip mid →
      a.value < v → v < b.value →
      smart_afr_value (smart_afr_table mid) v =
        a.afr + ((v - a.value : ℕ) : ℝ) * (b.afr - a.afr) /
          ((b.value - a.value : ℕ) : ℝ)) := by
  have h00 : afr_zero.value = 0 := rfl
  have hzv : ∀ p ∈ mid, p.value ≠ 0 := by
    intro p hp
    have := (List.pairwise_cons.mp hv).1 p hp
    omega
  refine ⟨?_, ?_, ?_, ?_⟩
  · simp [smart_afr_value]
  · intro v hvall
    by_cases h0 : v = 0
    · subst h0
      cases mid with
      | nil => simp [smart_afr_value, smart_afr_table, List.getLast, afr_zero]
      | cons p rest =>
          exact absurd (hvall p (List.mem_cons_self _ _)) (by omega)
    · rw [smart_afr_value_table_pos mid v h0]
      exact smart_afr_scan_last mid afr_zero v hzv hvall
  · intro q hq
    rw [smart_afr_value_table_pos mid q.value (hzv q hq)]
    exact smart_afr_scan_exact mid afr_zero q.value q hv hq rfl
  · intro a b v hzip hav hvb
    have h0 : v ≠ 0 := by omega
    rw [smart_afr_value_table_pos mid v h0]
    exact smart_afr_scan_interp mid afr_zero v a b hv hzip hav hvb

theorem C4_witness :
    smart_afr_value (smart_afr_table [⟨10, 1⟩, ⟨20, 2⟩]) 0 = 0 ∧
    (∀ v : ℕ, (∀ p ∈ [(⟨10, 1⟩ : afr_point), ⟨20, 2⟩], p.value < v) →
      smart_afr_value (smart_afr_table [⟨10, 1⟩, ⟨20, 2⟩]) v =
        ((afr_zero :: [(⟨10, 1⟩ : afr_point), ⟨20, 2⟩]).getLast
          (List.cons_ne_nil _ _)).afr) ∧
    (∀ q ∈ [(⟨10, 1⟩ : afr_point), ⟨20, 2⟩],
      smart_afr_value (smart_afr_table [⟨10, 1⟩, ⟨20, 2⟩]) q.value = q.afr) ∧
    (∀ (a b : afr_point) (v : ℕ),
      (a, b) ∈ (afr_zero :: [(⟨10, 1⟩ : afr_point), ⟨20, 2⟩]).zip
        [(⟨10, 1⟩ : afr_point), ⟨20, 2⟩] →
      a.value < v → v < b.value →
      smart_afr_value (smart_afr_table [⟨10, 1⟩, ⟨20, 2⟩]) v =
        a.afr + ((v - a.value : ℕ) : ℝ) * (b.afr - a.afr) /
          ((b.value - a.value : ℕ) : ℝ)) :=
  C4_interpolator_piecewise [⟨10, 1⟩, ⟨20, 2⟩] (by decide)

/-- C5 counterexample: the compiled-in table `AFR_5` satisfies the
monotone counterValue invariant, yet interpolation over it is not
monotone: the stored rate at breakpoint 17000 is lower than the one at
4500, so the value at 17000 is strictly below the value at 4500. -/
theorem C5_counterexample :
    AFR_5.dropLast.Pairwise (fun x y => x.value < y.value) ∧
    (4500 : ℕ) ≤ 17000 ∧
    ¬ smart_afr_value AFR_5 4500 ≤ smart_afr_value AFR_5 17000 := by
  have h1 : smart_afr_value AFR_5 4500 = 2.0659987547404763 := by
    norm_num [smart_afr_value, AFR_5, smart_afr_scan]
  have h2 : smart_afr_value AFR_5 17000 = 1.7755385684503124 := by
    norm_num [smart_afr_value, AFR_5, smart_afr_scan]
  refine ⟨by decide, by norm_num, ?_⟩
  rw [h1, h2]
  norm_num

/-- C5 amended: interpolation is monotone non-decreasing in the counter
value for every table whose breakpoints are strictly increasing AND
whose tabulated rates are non-decreasing (the latter holds for five of
the six compiled-in tables; `AFR_5` violates it at its last point). -/
theorem C5_amended_interpolate_monotone (mid : List afr_point)
    (hv : (afr_zero :: mid).Pairwise (fun x y => x.value < y.value))
    (ha : (afr_zero :: mid).Pairwise (fun x y => x.afr ≤ y.afr))
    (v1 v2 : ℕ) (h12 : v1 ≤ v2) :
    smart_afr_value (smart_afr_table mid) v1 ≤
      smart_afr_value (smart_afr_table mid) v2 := by
  have h00 : afr_zero.value = 0 := rfl
  by_cases h1 : v1 = 0
  · subst h1
    have hL : smart_afr_value (smart_afr_table mid) 0 = 0 := by
      simp [smart_afr_value]
    rw [hL]
    by_cases h2 : v2 = 0
    · subst h2; rw [hL]
    · rw [smart_afr_value_table_pos mid v2 h2]
      have hge := smart_afr_scan_ge mid afr_zero v2 hv ha
        (show afr_zero.value < v2 by omega)
      calc (0 : ℝ) = afr_zero.afr := by simp [afr_zero]
        _ ≤ _ := hge
  · have h2 : v2 ≠ 0 := by omega
    rw [smart_afr_value_table_pos mid v1 h1, smart_afr_value_table_pos mid v2 h2]
    exact smart_afr_scan_mono mid afr_zero v1 v2 hv ha
      (show afr_zero.value < v1 by omega) h12

theorem C5_witness :
    smart_afr_value AFR_187 2 ≤ smart_afr_value AFR_187 50 := by
  have h := C5_amended_interpolate_monotone
    [⟨1, 0.33877621175661743⟩, ⟨3, 0.5014425058387142⟩, ⟨11, 0.5346094598348444⟩,
     ⟨20, 0.8428063943161636⟩, ⟨35, 1.4429071005017484⟩, ⟨65, 1.6190935390549661⟩]
    (by decide)
    (by norm_num [List.pairwise_cons, List.forall_mem_cons, afr_zero])
    2 50 (by norm_num)
  exact h

/-- C6: the Poisson pmf is `rate^n * e^(-rate) / n!` with the
iteratively computed factorial; the tail probability of `n` or more
events is one minus the sum of the first `n` pmf values; the tail at
`n = 0` is 1 for every non-negative rate; and the tail at rate 0,
`n = 1` is 0. -/
theorem C6_poisson_model :
    (∀ n : ℕ, fact n = (Nat.factorial n : ℝ)) ∧
    (∀ (rate : ℝ) (n : ℕ), poisson_prob_n_failures rate n =
      rate ^ n * Real.exp (-rate) / (Nat.factorial n : ℝ)) ∧
    (∀ (rate : ℝ) (n : ℕ), poisson_prob_n_or_more_failures rate n =
      1 - Finset.sum (Finset.range n) fun k => poisson_prob_n_failures rate k) ∧
    (∀ rate : ℝ, 0 ≤ rate → poisson_prob_n_or_more_failures rate 0 = 1) ∧
    poisson_prob_n_or_more_failures 0 1 = 0 := by
  refine ⟨fact_eq_factorial, ?_, poisson_tail_eq_sum, ?_, poisson_tail_one_at_zero⟩
  · intro rate n
    simp only [poisson_prob_n_failures, fact_eq_factorial]
  · intro rate _
    exact poisson_tail_zero rate

theorem C6_witness : poisson_prob_n_or_more_failures 2 0 = 1 :=
  C6_poisson_model.2.2.2.1 2 (by norm_num)

/-- The output-side processing of `printf(str)` as `printl` invokes it:
the argument is used as a format string, so each two-character `%%`
escape prints as a single percent character.  (The buffers reaching
`printl` contain no other percent characters, so no other directive is
ever interpreted.) -/
def printf_collapse : List Char → List Char
  | [] => []
  | [c] => [c]
  | c :: c2 :: rest =>
    if c = '%' ∧ c2 = '%' then '%' :: printf_collapse rest
    else c :: printf_collapse (c2 :: rest)

/-- `printl`: executes `printf(str)` — which collapses the `%%` escape —
then pads with single spaces while `strlen(str)` is below `pad`.  The
padding counts the raw buffer length (both percent characters), not the
printed length. -/
def printl (s : String) (pad : ℕ) : String :=
  String.mk (printf_collapse s.data) ++ String.mk (List.replicate (pad - s.length) ' ')

/-- The format chain of `printp`: the (width, decimals) pair selected by
the strict threshold comparisons of the source, from `"%5.2f"` for
`v > 0.1` down to `"%17.14f"` otherwise. -/
noncomputable def printp_format (v : ℝ) : ℕ × ℕ :=
  if v > 0.1 then (5, 2)
  else if v > 0.01 then (6, 3)
  else if v > 0.001 then (7, 4)
  else if v > 0.0001 then (8, 5)
  else if v > 0.00001 then (9, 6)
  else if v > 0.000001 then (10, 7)
  else if v > 0.0000001 then (11, 8)
  else if v > 0.00000001 then (12, 9)
  else if v > 0.000000001 then (13, 10)
  else if v > 0.0000000001 then (14, 11)
  else if v > 0.00000000001 then (15, 12)
  else if v > 0.000000000001 then (16, 13)
  else (17, 14)

/-- `printp`: `snprintf` renders the probability with the selected
width and decimal count through the format `"%W.Df%s"` with `s = " %%"`,
so the buffer holds the rendered number followed by a space and the
two-character escape `"%%"`; `printl` then prints and pads that buffer.
The numeric rendering itself (libc `snprintf`) is an external
collaborator, passed as `fmt`. -/
noncomputable def printp (fmt : ℕ → ℕ → ℝ → String) (v : ℝ) (pad : ℕ) : String :=
  printl (fmt (printp_format v).1 (printp_format v).2 v ++ " %%") pad

/-- The decimal-digit table exactly as the specification spells it
(spec-side formulation, for comparison with the source chain): strict
comparisons against 0.1 down to 1e-12, otherwise 14 digits. -/
noncomputable def spec_adaptive_decimals (v : ℝ) : ℕ :=
  if v > 0.1 then 2
  else if v > 0.01 then 3
  else if v > 0.001 then 4
  else if v > 1e-4 then 5
  else if v > 1e-5 then 6
  else if v > 1e-6 then 7
  else if v > 1e-7 then 8
  else if v > 1e-8 then 9
  else if v > 1e-9 then 10
  else if v > 1e-10 then 11
  else if v > 1e-11 then 12
  else if v > 1e-12 then 13
  else 14

/-- The per-device AFP cell of the smart report: the source prints it
with `printf("%5.0f", tail(afr, 1) * 100)` — fixed width 5, zero
decimals, not through `printp`. -/
noncomputable def state_smart_afp_cell (fmt : ℕ → ℕ → ℝ → String) (afr : ℝ) : String :=
  fmt 5 0 (poisson_prob_n_or_more_failures afr 1 * 100)

lemma printp_format_zero : printp_format 0 = (17, 14) := by
  unfold printp_format
  norm_num

lemma printf_collapse_append (l : List Char) (h : ∀ c ∈ l, c ≠ '%') (t : List Char) :
    printf_collapse (l ++ t) = l ++ printf_collapse t := by
  induction l with
  | nil => rfl
  | cons c rest ih =>
      have hc : c ≠ '%' := h c (List.mem_cons_self _ _)
      have ih2 := ih fun x hx => h x (List.mem_cons_of_mem _ hx)
      rw [List.cons_append]
      cases hrt : rest ++ t with
      | nil =>
          rcases List.append_eq_nil.mp hrt with ⟨h1, h2⟩
          subst h1; subst h2
          rfl
      | cons d rest2 =>
          simp only [printf_collapse]
          rw [if_neg fun hh => hc hh.1, ← hrt, ih2, List.cons_append]

lemma printl_append_pct (s : String) (h : ∀ c ∈ s.data, c ≠ '%') (pad : ℕ) :
    printl (s ++ " %%") pad =
      (s ++ " %") ++ String.mk (List.replicate (pad - (s.length + 3)) ' ') := by
  unfold printl
  have hdata : (s ++ " %%").data = s.data ++ [' ', '%', '%'] := by
    rw [String.data_append]
  have hcol : printf_collapse (s ++ " %%").data = s.data ++ [' ', '%'] := by
    rw [hdata, printf_collapse_append s.data h]
    rfl
  have hlen : (s ++ " %%").length = s.length + 3 := by
    rw [String.length_append]
    rfl
  rw [hcol, hlen]
  have hmk : String.mk (s.data ++ [' ', '%']) = s ++ " %" :=
    String.ext (by rw [String.data_append])
  rw [hmk]

lemma printl_append_pct_length (s : String) (h : ∀ c ∈ s.data, c ≠ '%') (pad : ℕ) :
    (printl (s ++ " %%") pad).length = max (s.length + 3) pad - 1 := by
  rw [printl_append_pct s h pad]
  have h2 : (" %" : String).length = 2 := rfl
  have h1 : ((s ++ " %") ++ String.mk (List.replicate (pad - (s.length + 3)) ' ')).length
      = s.length + 2 + (pad - (s.length + 3)) := by
    simp [String.length_append, String.length_mk, List.length_replicate, h2]
  rw [h1]
  omega

/-- C8 counterexample: the formatter's output is not the number
immediately followed by a percent sign (the format is `"%W.Df %%"`, a
space precedes the percent); the padding loop counts the raw buffer
still holding the two-character `%%` escape while `printf` collapses it
on output, so the visible output falls one short of the caller-specified
column width whenever padding applies; and the per-device AFP
percentage is printed with zero decimals rather than by the adaptive
rule (which yields 14 decimals at value 0). -/
theorem C8_counterexample :
    printp (fun _ _ _ => "") 0 0 ≠ "%" ∧
    (printp (fun _ _ _ => "50.00") 50 20).length = 19 ∧
    (printp (fun _ _ _ => "50.00") 50 20).length ≠ 20 ∧
    state_smart_afp_cell (fun _ d _ => toString d) 0 = "0" ∧
    printp (fun _ d _ => toString d) (poisson_prob_n_or_more_failures 0 1 * 100) 0 =
      "14 %" := by
  refine ⟨by decide, by decide, by decide, by decide, ?_⟩
  have hX : poisson_prob_n_or_more_failures 0 1 * 100 = 0 := by
    rw [poisson_tail_one_at_zero]; ring
  rw [hX]
  show printl (toString (printp_format 0).2 ++ " %%") 0 = "14 %"
  rw [printp_format_zero]
  decide

/-- C8 amended: the probability formatter `printp` chooses its decimal
count by the spec's strict-threshold table (a value exactly at a
threshold uses the lower-precision branch: 0.1 maps to 3 decimals, 0 to
14 decimals); its visible output is the rendered fixed-point number
followed by a space and a single percent sign, then padded with spaces
counted against the raw buffer length — the buffer still holds the
two-character `%%` escape — so the visible output reaches exactly one
column less than the caller-specified width whenever padding applies. -/
theorem C8_amended_formatting :
    (∀ v : ℝ, (printp_format v).2 = spec_adaptive_decimals v) ∧
    (printp_format 0.1).2 = 3 ∧
    (printp_format 0).2 = 14 ∧
    (∀ (fmt : ℕ → ℕ → ℝ → String) (v : ℝ) (pad : ℕ),
      (∀ c ∈ (fmt (printp_format v).1 (printp_format v).2 v).data, c ≠ '%') →
      printp fmt v pad =
        (fmt (printp_format v).1 (printp_format v).2 v ++ " %") ++
          String.mk (List.replicate
            (pad - ((fmt (printp_format v).1 (printp_format v).2 v).length + 3)) ' ') ∧
      (printp fmt v pad).length =
        max ((fmt (printp_format v).1 (printp_format v).2 v).length + 3) pad - 1) := by
  refine ⟨?_, ?_, ?_, ?_⟩
  · intro v
    unfold printp_format spec_adaptive_decimals
    simp only [apply_ite Prod.snd]
  · unfold printp_format
    norm_num
  · rw [printp_format_zero]
  · intro fmt v pad h
    exact ⟨printl_append_pct _ h pad, printl_append_pct_length _ h pad⟩

theorem C8_witness :
    printp (fun _ _ _ => "50.00") 50 20 =
      (("50.00" : String) ++ " %") ++
        String.mk (List.replicate (20 - (("50.00" : String).length + 3)) ' ') ∧
    (printp (fun _ _ _ => "50.00") 50 20).length =
      max (("50.00" : String).length + 3) 20 - 1 :=
  C8_amended_formatting.2.2.2 (fun _ _ _ => "50.00") 50 20 (by decide)

/-- A parent reference: the fields of the physical device record that
the dispatcher dereferences through `devinfo->parent`. -/
structure parent_ref where
  device : ℕ
  file : String
  name : String

/-- One entry of a per-invocation device list (`devinfo_t`): the SMART
attribute snapshot is a partial map (`none` stands for
`SMART_UNASSIGNED`), and `parent` is the weak reference distinguishing
logical records (set) from physical records (none). -/
structure devinfo where
  device : ℕ
  name : String
  file : String
  smart_serial : String
  smart : ℕ → Option ℕ
  parent : Option parent_ref

/-- Contribution of one SMART attribute to the device AFR: 0 when the
counter is `SMART_UNASSIGNED`, the interpolated rate otherwise. -/
noncomputable def afr_contribution (tab : List afr_point) : Option ℕ → ℝ
  | none => 0
  | some v => smart_afr_value tab v

/-- `smart_afr`: the estimated AFR of a snapshot, summing the assigned
monitored attributes (5, 187, 188, 193, 197, 198) as if independent. -/
noncomputable def smart_afr (smart : ℕ → Option ℕ) : ℝ :=
  afr_contribution AFR_5 (smart 5) + afr_contribution AFR_187 (smart 187) +
    afr_contribution AFR_188 (smart 188) + afr_contribution AFR_193 (smart 193) +
    afr_contribution AFR_197 (smart 197) + afr_contribution AFR_198 (smart 198)

/-- The aggregate accumulation of `state_smart`: one pass over the
resolved list, adding a record's AFR exactly when its parent reference
is set (`if (devinfo->parent != 0) array_failure_rate += afr`). -/
noncomputable def array_failure_rate (low : List devinfo) : ℝ :=
  low.foldl (fun acc d => if d.parent.isSome then acc + smart_afr d.smart else acc) 0

/-- A configured data disk (the fields `state_device` reads). -/
structure snapraid_disk where
  device : ℕ
  name : String
  dir : String

/-- A configured parity slot (the fields `state_device` reads). -/
structure snapraid_parity where
  device : ℕ
  path : String

/-- The configuration state read by the dispatcher: the disk list and
the parity level (with the parity slot array). -/
structure snapraid_state where
  disklist : List snapraid_disk
  level : ℕ
  parity : List snapraid_parity

/-- The member count computed before calling `state_smart`: start from
the parity level, add one per configured disk. -/
def smart_member_count (st : snapraid_state) : ℕ :=
  st.disklist.foldl (fun c _ => c + 1) st.level

/-- Modelled from the spec: `RAID_PARITY_MAX` is declared in
`raid/raid.h`, which is not among the analysed sources; the spec fixes
the maximum supported redundancy as a small constant, 6. -/
def RAID_PARITY_MAX : ℕ := 6

/-- The redundancies at which the data-loss table of `state_smart`
invokes the array loss model: `j + 1` for `j = 0 .. RAID_PARITY_MAX-1`,
regardless of the member count. -/
def state_smart_loss_redundancies : List ℕ :=
  (List.range RAID_PARITY_MAX).map fun j => j + 1

/-- The operation selector of the dispatcher. -/
inductive device_operation
  | up
  | down
  | list
  | smart
deriving DecidableEq

/-- The operation name printed by the unsupported-operation diagnostic. -/
def device_operation_name : device_operation → String
  | .up => "Spinup"
  | .down => "Spindown"
  | .list => "List"
  | .smart => "SMART"

/-- Observable events of one `state_device` invocation: stdout text,
a stderr diagnostic, one topology-listing line, or the invocation of
the smart-report section with its member count and resolved list. -/
inductive device_event
  | out : String → device_event
  | err : String → device_event
  | listLine : String → device_event
  | smartSection : ℕ → List devinfo → device_event

/-- One line of the topology listing.  The source dereferences the
parent unconditionally (the collaborator guarantees it is set for every
returned record); the unreachable parentless case renders empty. -/
def device_list_line (d : devinfo) : String :=
  match d.parent with
  | some pr =>
      toString d.device ++ "\t" ++ d.file ++ "\t" ++ toString pr.device ++ "\t" ++
        pr.file ++ "\t" ++ pr.name
  | none => ""

/-- The observable trace of `state_device`, parameterised by the result
of the external `devquery` collaborator: `dq_low` is the resolved list
it filled, `dq_ret` its status (non-zero when the operation is
unsupported on the platform). -/
def state_device (st : snapraid_state) (op : device_operation)
    (dq_low : List devinfo) (dq_ret : ℤ) : List device_event :=
  (match op with
    | .up => [device_event.out "Spinup...\n"]
    | .down => [device_event.out "Spindown...\n"]
    | _ => []) ++
  (if dq_ret ≠ 0 then
    [device_event.err (device_operation_name op ++ " unsupported in this platform.\n")]
  else []) ++
  (if op = device_operation.list then
    dq_low.map fun d => device_event.listLine (device_list_line d)
  else []) ++
  (if op = device_operation.smart then
    [device_event.smartSection (smart_member_count st) dq_low]
  else [])

/-- Modelled from the spec: the `devquery` collaborator (platform code,
not among the analysed sources) returns a non-zero status and an empty
resolved list when the requested operation is unsupported. -/
def devquery_reports_unsupported (dq_low : List devinfo) (dq_ret : ℤ) : Prop :=
  dq_ret ≠ 0 ∧ dq_low = []

lemma smart_member_count_eq (st : snapraid_state) :
    smart_member_count st = st.disklist.length + st.level := by
  unfold smart_member_count
  have h : ∀ (l : List snapraid_disk) (c : ℕ),
      l.foldl (fun c _ => c + 1) c = c + l.length := by
    intro l
    induction l with
    | nil => intro c; simp
    | cons x xs ih => intro c; rw [List.foldl_cons, ih]; simp; omega
  rw [h]
  omega

lemma array_failure_rate_foldl (low : List devinfo) :
    ∀ acc : ℝ,
      low.foldl (fun acc d => if d.parent.isSome then acc + smart_afr d.smart else acc)
          acc =
        acc + ((low.filter fun d => d.parent.isSome).map fun d => smart_afr d.smart).sum := by
  induction low with
  | nil => intro acc; simp
  | cons d rest ih =>
      intro acc
      rw [List.foldl_cons]
      by_cases hp : d.parent.isSome
      · rw [if_pos hp, ih]
        simp [List.filter_cons, hp, add_assoc]
      · rw [if_neg hp, ih]
        have hp3 : d.parent.isSome = false := by simpa using hp
        simp [List.filter_cons, hp3]

/-- C3 counterexample: with one configured disk and one parity slot the
member count is 2, yet the data-loss table still drives the loss model
at redundancy 6 ≥ 2 — no configuration with `redundancy ≥ memberCount`
is rejected before the calls. -/
theorem C3_counterexample :
    smart_member_count ⟨[⟨0, "d1", "/mnt/d1"⟩], 1, [⟨1, "/mnt/p1"⟩]⟩ = 2 ∧
    6 ∈ state_smart_loss_redundancies ∧
    ¬ (6 : ℕ) < smart_member_count ⟨[⟨0, "d1", "/mnt/d1"⟩], 1, [⟨1, "/mnt/p1"⟩]⟩ :=
  ⟨rfl, by decide, by decide⟩

/-- C3 amended: the smart-report dispatcher invokes the loss model at
every redundancy 1..RAID_PARITY_MAX regardless of the configuration,
with no prior rejection; every such call satisfies
`redundancy < memberCount` exactly when the configured member count
exceeds RAID_PARITY_MAX. -/
theorem C3_amended_redundancy_bound (st : snapraid_state)
    (h : RAID_PARITY_MAX < smart_member_count st) :
    ∀ r ∈ state_smart_loss_redundancies, r < smart_member_count st := by
  intro r hr
  unfold state_smart_loss_redundancies at hr
  rcases List.mem_map.mp hr with ⟨j, hj, rfl⟩
  have hjr := List.mem_range.mp hj
  omega

theorem C3_witness :
    (6 : ℕ) < smart_member_count ⟨[], 7, []⟩ :=
  C3_amended_redundancy_bound ⟨[], 7, []⟩ (by decide) 6 (by decide)

/-- C7: the aggregate array failure rate accumulated by `state_smart`
is the sum of the per-device AFR over exactly the records whose parent
reference is set — one contribution per logical member, none per
physical record; and the member count handed to the smart report is
the number of configured disks plus the parity level, independent of
the resolved list the collaborator produced. -/
theorem C7_aggregate_rate_and_member_count :
    (∀ low : List devinfo,
      array_failure_rate low =
        ((low.filter fun d => d.parent.isSome).map fun d => smart_afr d.smart).sum) ∧
    (∀ st : snapraid_state, smart_member_count st = st.disklist.length + st.level) ∧
    (∀ (st : snapraid_state) (op : device_operation) (dq_low : List devinfo)
        (dq_ret : ℤ) (n : ℕ) (L : List devinfo),
      device_event.smartSection n L ∈ state_device st op dq_low dq_ret →
      n = st.disklist.length + st.level ∧ L = dq_low) := by
  refine ⟨?_, smart_member_count_eq, ?_⟩
  · intro low
    unfold array_failure_rate
    rw [array_failure_rate_foldl]
    ring
  · intro st op dq_low dq_ret n L h
    rw [← smart_member_count_eq]
    by_cases hq : dq_ret ≠ 0 <;> cases op <;>
      simp [state_device, hq] at h <;>
      exact ⟨h.1, h.2⟩

theorem C7_witness :
    (3 : ℕ) = List.length ([] : List snapraid_disk) + 3 ∧
    ([] : List devinfo) = ([] : List devinfo) :=
  C7_aggregate_rate_and_member_count.2.2 ⟨[], 3, []⟩ device_operation.smart [] 1 3 []
    (by simp [state_device, smart_member_count])

/-- C9 counterexample: for the smart-report operation with an
unsupported collaborator result, the smart-report section is still
invoked (with the empty resolved list), so the report sections that
depend on the resolved list are not all skipped. -/
theorem C9_counterexample :
    device_event.smartSection 1 [] ∈
      state_device ⟨[], 1, []⟩ device_operation.smart [] 1 := by
  simp [state_device, smart_member_count]

/-- C9 amended: when the collaborator reports the operation
unsupported, the resolved list is empty, exactly one diagnostic naming
the attempted operation is emitted, the dispatcher continues without
other failure, and the topology-listing section emits no lines — but
the smart-report section is still invoked, with the empty resolved
list and the configured member count. -/
theorem C9_amended_unsupported (st : snapraid_state) (op : device_operation)
    (dq_low : List devinfo) (dq_ret : ℤ)
    (h : devquery_reports_unsupported dq_low dq_ret) :
    state_device st op dq_low dq_ret =
      (match op with
        | device_operation.up => [device_event.out "Spinup...\n"]
        | device_operation.down => [device_event.out "Spindown...\n"]
        | _ => []) ++
      [device_event.err (device_operation_name op ++ " unsupported in this platform.\n")] ++
      (if op = device_operation.smart then
        [device_event.smartSection (smart_member_count st) []]
      else []) := by
  obtain ⟨hret, hlow⟩ := h
  subst hlow
  cases op <;> simp [state_device, hret]

theorem C9_witness :
    state_device ⟨[], 1, []⟩ device_operation.list [] 1 =
      [device_event.err "List unsupported in this platform.\n"] := by
  have h := C9_amended_unsupported ⟨[], 1, []⟩ device_operation.list [] 1
    ⟨by decide, rfl⟩
  simpa [device_operation_name] using h

end Snapraid
